import Mathlib

/-!
Verification of the block-editing core of the video editor (src/main.py).

Times are seconds; Python floats are modelled as exact rationals (the
decimal literals 0.1, 0.2, 0.3, 0.05 of the source become 1/10, 1/5,
3/10, 1/20).  External processes (ffmpeg/ffprobe invocations, file I/O,
the Qt media player) are abstracted: their outputs become explicit
arguments, their effects become explicit result values.
-/

/-- Mirrors `AudioBlock` (main.py lines 25-31).  The Python attribute
`end` is a Lean keyword, so it is named `stop`; likewise `include` is a
Lean keyword, so it is named `incl`. -/
structure AudioBlock where
  start : ℚ
  stop : ℚ
  is_silence : Bool
  incl : Bool
  visited : Bool
deriving DecidableEq, Repr

instance : Inhabited AudioBlock := ⟨⟨0, 0, false, false, false⟩⟩

/-- Mirrors `AudioBlock.__init__`: `include = not is_silence`,
`visited = False`. -/
def AudioBlock.mk0 (s e : ℚ) (is_sil : Bool) : AudioBlock :=
  { start := s, stop := e, is_silence := is_sil, incl := !is_sil, visited := false }

/-- The block-building loop of `SilenceDetector.detect_blocks`
(main.py lines 918-929): cursor `current_time = t`; for each silence
interval `(s, e)`: if `s > t` emit a non-silence block `[t, s)`, always
emit a silence block `[s, e)`, advance the cursor to `e`; after all
intervals emit a trailing non-silence block `[t, duration)` when
`t < duration`. -/
def buildBlocks : List (ℚ × ℚ) → ℚ → ℚ → List AudioBlock
  | [], t, duration => if t < duration then [AudioBlock.mk0 t duration false] else []
  | (s, e) :: rest, t, duration =>
    (if t < s then [AudioBlock.mk0 t s false] else []) ++
      AudioBlock.mk0 s e true :: buildBlocks rest e duration

/-- Mirrors `SilenceDetector.detect_blocks` (main.py lines 885-930)
after its external effects are abstracted: the stderr scrape of the
silencedetect run is given as the two extracted marker lists
`silence_starts`/`silence_ends` (in order of appearance), and the
ffprobe duration probe as `durationProbe` (`none` when
`float(duration_result.stdout.strip())` would raise, i.e. the probe
printed nothing parsable; that uncaught ValueError is modelled as
`Except.error`).  The source pairs markers with `zip`, so trailing
unpaired entries are dropped. -/
def detect_blocks (silence_starts silence_ends : List ℚ)
    (durationProbe : Option ℚ) : Except String (List AudioBlock) :=
  match durationProbe with
  | none => Except.error "ValueError: could not convert string to float"
  | some duration => Except.ok (buildBlocks (silence_starts.zip silence_ends) 0 duration)

/-- JSON values, modelling what `json.load`/`json.dump` exchange with
the persisted-state files.  Objects are association lists; the states
written and read here never contain duplicate keys. -/
inductive JValue where
  | jnull
  | jbool (b : Bool)
  | jnum (q : ℚ)
  | jstr (s : String)
  | jarr (xs : List JValue)
  | jobj (fields : List (String × JValue))

/-- Key lookup in a JSON object (Python `dict` subscript; `none` models
the KeyError raised on a missing key). -/
def jLookup : List (String × JValue) → String → Option JValue
  | [], _ => none
  | (k, v) :: rest, key => if k = key then some v else jLookup rest key

def JValue.asNum : JValue → Option ℚ
  | .jnum q => some q
  | _ => none

def JValue.asBool : JValue → Option Bool
  | .jbool b => some b
  | _ => none

def JValue.asArr : JValue → Option (List JValue)
  | .jarr xs => some xs
  | _ => none

def JValue.asObj : JValue → Option (List (String × JValue))
  | .jobj fields => some fields
  | _ => none

/-- Python truthiness of a JSON-decoded value, used for guards such as
`if not self.block_manager.video_path` (main.py line 462). -/
def JValue.falsy : JValue → Bool
  | .jnull => true
  | .jbool b => !b
  | .jnum q => decide (q = 0)
  | .jstr s => s.isEmpty
  | .jarr xs => xs.isEmpty
  | .jobj fields => fields.isEmpty

/-- Mirrors `AudioBlock.to_dict` (main.py lines 33-40). -/
def AudioBlock.to_dict (b : AudioBlock) : JValue :=
  .jobj [("start", .jnum b.start), ("end", .jnum b.stop),
         ("is_silence", .jbool b.is_silence), ("include", .jbool b.incl),
         ("visited", .jbool b.visited)]

/-- Mirrors `AudioBlock.from_dict` (main.py lines 42-47): reads all five
fields out of the dictionary (`none` models the KeyError on a missing
key).  Python would store a value of the wrong JSON type verbatim; the
model restricts to schema-typed values — numbers for `start`/`end`,
booleans for the flags — treating a mistyped field as a failed load,
which is the only deviation from the untyped source and is never
exercised by the claims below. -/
def AudioBlock.from_dict (j : JValue) : Option AudioBlock := do
  let fields ← j.asObj
  let s ← (jLookup fields "start").bind JValue.asNum
  let e ← (jLookup fields "end").bind JValue.asNum
  let sil ← (jLookup fields "is_silence").bind JValue.asBool
  let inc ← (jLookup fields "include").bind JValue.asBool
  let vis ← (jLookup fields "visited").bind JValue.asBool
  pure { start := s, stop := e, is_silence := sil, incl := inc, visited := vis }

/-- The list comprehension
`[AudioBlock.from_dict(block_data) for block_data in state['blocks']]`
(main.py line 90): the whole list is built before being assigned, so one
bad element fails the load with no partial list. -/
def blocksFromDicts : List JValue → Option (List AudioBlock)
  | [] => some []
  | j :: js => do
    let b ← AudioBlock.from_dict j
    let bs ← blocksFromDicts js
    pure (b :: bs)

/-- Mirrors `BlockManager` (main.py lines 49-57): `video_path` starts as
Python `None` (`jnull`) and holds whatever `state['video_path']` held on
a load; `duration` is the attribute created only by `load_state`
(line 93). -/
structure BlockManager where
  video_path : JValue
  blocks : List AudioBlock
  duration : Option ℚ

/-- The JSON object `{'video_path': ..., 'blocks': [...]}` written by
`BlockManager.save_state` (main.py lines 71-74). -/
def stateJson (vp : JValue) (bs : List AudioBlock) : JValue :=
  .jobj [("video_path", vp), ("blocks", .jarr (bs.map AudioBlock.to_dict))]

/-- Mirrors `BlockManager.save_state` (main.py lines 67-82) with the
file write abstracted: `none` models the early `return False` on an
empty block list, `some` the JSON value dumped to disk. -/
def BlockManager.save_state (m : BlockManager) : Option JValue :=
  if m.blocks.isEmpty then none else some (stateJson m.video_path m.blocks)

/-- Mirrors `BlockManager.load_state` (main.py lines 84-97).  The input
is `none` when the file is unreadable or `json.load` raises.  Every
exception is caught and turned into `(state-so-far, false)`; crucially
`self.video_path` is assigned (line 89) before `state['blocks']` is
read (line 90), so a failure in the later steps leaves the manager with
the new video path but the old blocks.  On success `self.duration` is
set to the last block's end (lines 92-93) — for an empty loaded list it
keeps its old value. -/
def BlockManager.load_state (m : BlockManager) (input : Option JValue) :
    BlockManager × Bool :=
  match input with
  | none => (m, false)
  | some j =>
    match j.asObj with
    | none => (m, false)
    | some fields =>
      match jLookup fields "video_path" with
      | none => (m, false)
      | some vpj =>
        let m1 : BlockManager := { m with video_path := vpj }
        match jLookup fields "blocks" with
        | none => (m1, false)
        | some bj =>
          match bj.asArr with
          | none => (m1, false)
          | some arr =>
            match blocksFromDicts arr with
            | none => (m1, false)
            | some bs =>
              match bs.getLast? with
              | some b => ({ m1 with blocks := bs, duration := some b.stop }, true)
              | none => ({ m1 with blocks := bs }, true)

/-- Mirrors `BlockManager.reset_blocks` (main.py lines 99-103): every
non-silence block gets `visited = False, include = True`; silence blocks
are untouched. -/
def reset_blocks (blocks : List AudioBlock) : List AudioBlock :=
  blocks.map fun b =>
    if b.is_silence then b else { b with visited := false, incl := true }

/-- First index of the list satisfying `p`, the model of the Python
idiom `next((i for i, block in enumerate(blocks) if ...), default)`
used at main.py lines 155 and 608, and of the forward scan loop of
`skip_silence` (lines 833-848). -/
def firstIdxWhere (p : AudioBlock → Bool) : List AudioBlock → Option ℕ
  | [] => none
  | b :: bs => if p b then some 0 else (firstIdxWhere p bs).map (· + 1)

/-- The containment test `block.start <= current_position <= block.end`
(main.py lines 155, 608-609): inclusive on both ends. -/
def containsPos (position : ℚ) (b : AudioBlock) : Bool :=
  decide (b.start ≤ position) && decide (position ≤ b.stop)

/-- The block lookup of `VideoPlayer.position_changed` (main.py
lines 608-609) and `BlockTimeline.paintEvent` (line 155): index of the
first block whose closed span contains the position, defaulting to 0. -/
def findBlockAt (blocks : List AudioBlock) (position : ℚ) : ℕ :=
  (firstIdxWhere (containsPos position) blocks).getD 0

/-- In-place update of one list element (`self.block_manager.blocks[i]`
attribute assignments); out-of-range indices leave the list unchanged. -/
def modifyAt : List AudioBlock → ℕ → (AudioBlock → AudioBlock) → List AudioBlock
  | [], _, _ => []
  | b :: bs, 0, f => f b :: bs
  | b :: bs, n + 1, f => b :: modifyAt bs n f

/-- The model-mutating part of `VideoPlayer.position_changed` (main.py
lines 599-631): resolve the block under the playhead and, when it is a
non-silence block, set `visited = True` and `include = green_mode`
(lines 621-624).  Silence blocks are never written.  The
`current_block_index` bookkeeping touches no block, so it is omitted
here. -/
def position_changed (blocks : List AudioBlock) (position : ℚ)
    (green_mode : Bool) : List AudioBlock :=
  if blocks.isEmpty then blocks
  else
    modifyAt blocks (findBlockAt blocks position) fun b =>
      if b.is_silence then b else { b with visited := true, incl := green_mode }

/-- The skip test of `skip_silence` (main.py lines 818-826): skip when
the block is silence and not included, or is a non-silence block shorter
than 0.2s (the include flag is irrelevant for the short-block case). -/
def skipCondition (b : AudioBlock) : Bool :=
  (b.is_silence && !b.incl) || (!b.is_silence && decide (b.stop - b.start < 1/5))

/-- The forward-scan acceptance test of `skip_silence` (main.py
line 838): non-silence and at least `min_block_duration = 0.3` long. -/
def suitableBlock (b : AudioBlock) : Bool :=
  !b.is_silence && decide ((3:ℚ)/10 ≤ b.stop - b.start)

/-- Outcome of one `skip_silence` tick: do nothing; seek to a target
position, make it the current block and ensure playback is running
(main.py lines 850-872); or stop playback because no suitable block
remains forward (lines 858-863). -/
inductive SkipAction where
  | noop
  | seekAndPlay (target : ℚ) (newIndex : ℕ)
  | stopPlayback
deriving DecidableEq, Repr

/-- Mirrors `VideoPlayer.skip_silence` (main.py lines 792-872): return
on an empty block list; clamp the stored index to the last block;
return while the playhead has been inside the current block for less
than 0.1s; evaluate the skip condition; on a skip, scan strictly
forward for the first suitable block (the while loop of lines 833-848)
and seek to its start plus 0.05s, else stop playback. -/
def skip_silence (blocks : List AudioBlock) (currentIndex : ℕ)
    (position : ℚ) : SkipAction :=
  if blocks.isEmpty then .noop
  else
    let idx := if blocks.length ≤ currentIndex then blocks.length - 1 else currentIndex
    let cb := blocks.getD idx default
    if position - cb.start < 1/10 then .noop
    else if skipCondition cb then
      match (firstIdxWhere suitableBlock (blocks.drop (idx + 1))).map (· + (idx + 1)) with
      | some j => .seekAndPlay ((blocks.getD j default).start + 1/20) j
      | none => .stopPlayback
    else .noop

/-- The selection rule of `VideoPlayer.export_green_blocks` (main.py
line 481): non-silence, visited, and included. -/
def includedBlock (b : AudioBlock) : Bool :=
  !b.is_silence && b.visited && b.incl

/-- A trim operation of the export plan: ffmpeg is invoked with
`-ss start -t duration` (main.py lines 503-515; the `{:.3f}` string
formatting of the command line is presentation only). -/
structure Segment where
  start : ℚ
  duration : ℚ
deriving DecidableEq, Repr

/-- The segment-emitting loop of `export_green_blocks` (main.py
lines 490-518): one descriptor per included block, in enumeration
order, duration floored at 0.1s. -/
def buildSegments : List AudioBlock → List Segment
  | [] => []
  | b :: rest =>
    { start := b.start, duration := max (1/10) (b.stop - b.start) } :: buildSegments rest

/-- Outcome of `export_green_blocks`: the silent early return when no
video/blocks are present (main.py lines 462-463), the "No blocks
selected for export!" warning (lines 483-485), or the emitted plan. -/
inductive ExportResult where
  | noOutput
  | emptySelection
  | plan (segments : List Segment)
deriving DecidableEq, Repr

/-- Mirrors the plan-computing core of `VideoPlayer.export_green_blocks`
(main.py lines 461-531); the ffmpeg trim/concat subprocesses and the
temp-file bookkeeping consume the plan but do not alter it. -/
def export_green_blocks (m : BlockManager) : ExportResult :=
  if m.video_path.falsy || m.blocks.isEmpty then .noOutput
  else
    let included_blocks := m.blocks.filter includedBlock
    if included_blocks.isEmpty then .emptySelection
    else .plan (buildSegments included_blocks)

/-- States of the block list reachable from a model freshly populated by
the block builder, under the two operations that write blocks:
the position-update classification of `position_changed` and
`reset_blocks`. -/
inductive Reachable : List AudioBlock → Prop where
  | fresh (intervals : List (ℚ × ℚ)) (duration : ℚ) :
      Reachable (buildBlocks intervals 0 duration)
  | posUpdate {bs : List AudioBlock} (position : ℚ) (green_mode : Bool) :
      Reachable bs → Reachable (position_changed bs position green_mode)
  | reset {bs : List AudioBlock} :
      Reachable bs → Reachable (reset_blocks bs)

/-- Ordered, non-overlapping silence intervals within `[t, d]`:
each interval starts no earlier than the cursor, ends no earlier than it
starts, and the final cursor stays within the duration. -/
def intervalsOrderedB : ℚ → List (ℚ × ℚ) → ℚ → Bool
  | t, [], d => decide (t ≤ d)
  | t, (s, e) :: rest, d => decide (t ≤ s) && decide (s ≤ e) && intervalsOrderedB e rest d

/-- The block list tiles `[t, d]`: the first block starts at `t`, each
block ends where the next starts, and the last block ends at `d` (an
empty list is allowed only when `t = d`).  This is full coverage with
no gaps and no overlaps. -/
def chainedFrom : ℚ → List AudioBlock → ℚ → Prop
  | t, [], d => t = d
  | t, b :: bs, d => b.start = t ∧ chainedFrom b.stop bs d

/-- No two consecutive blocks of the list are both non-silence. -/
def noConsecNonSilence : List AudioBlock → Prop
  | [] => True
  | [_] => True
  | a :: b :: rest =>
    (a.is_silence = true ∨ b.is_silence = true) ∧ noConsecNonSilence (b :: rest)

/-- Pairwise adjacency: each block's end is the next block's start. -/
def adjacentChainB : List AudioBlock → Bool
  | [] => true
  | [_] => true
  | a :: b :: rest => decide (a.stop = b.start) && adjacentChainB (b :: rest)

/-- The structural invariant of a persisted block list: first block
starts at 0, blocks are pairwise adjacent (no gaps or overlaps), and
every span is non-degenerate. -/
def structuralInvariantB (bs : List AudioBlock) : Bool :=
  (match bs.head? with
   | none => true
   | some b => decide (b.start = 0)) &&
  adjacentChainB bs &&
  bs.all fun b => decide (b.start ≤ b.stop)

/-- The scenario intervals of the spec: `[(2.0, 3.0), (5.0, 5.5)]`. -/
def demoIntervals : List (ℚ × ℚ) := [(2, 3), (5, 11/2)]

/-- The block list the builder derives from the scenario intervals with
duration 10. -/
def demoBlocks : List AudioBlock := buildBlocks demoIntervals 0 10

/-- A concrete reviewed session: blocks 0 and 4 are visited and
included, block 2 was visited in red mode (excluded). -/
def demoExportBlocks : List AudioBlock :=
  [⟨0, 2, false, true, true⟩, ⟨2, 3, true, false, false⟩,
   ⟨3, 5, false, false, true⟩, ⟨5, 6, true, false, false⟩,
   ⟨6, 10, false, true, true⟩]

/-- A manager holding the reviewed session. -/
def demoManager : BlockManager := ⟨.jstr "video.mp4", demoExportBlocks, none⟩

/-- A persisted block list violating the structural invariant: its
first block starts at 1, not 0. -/
def badBlocks : List AudioBlock := [⟨1, 2, false, true, true⟩]

/-- A persisted block list violating the structural invariant: a gap
between the two blocks. -/
def gapBlocks : List AudioBlock :=
  [⟨0, 2, false, true, true⟩, ⟨3, 4, false, true, true⟩]

/-- A manager with loaded state, about to be hit by a failing load. -/
def oldManager : BlockManager := ⟨.jstr "old.mp4", [⟨0, 1, false, true, true⟩], none⟩

/-- A persisted state whose `video_path` field is present but whose
`blocks` key is missing: `json.load` succeeds, the video path is
assigned, then `state['blocks']` raises KeyError. -/
def truncatedState : JValue := .jobj [("video_path", .jstr "new.mp4")]

theorem intervalsOrderedB_le : ∀ (ivs : List (ℚ × ℚ)) (t d : ℚ),
    intervalsOrderedB t ivs d = true → t ≤ d := by
  intro ivs
  induction ivs with
  | nil => intro t d h; simpa [intervalsOrderedB] using h
  | cons p rest ih =>
    intro t d h
    obtain ⟨s, e⟩ := p
    simp only [intervalsOrderedB, Bool.and_eq_true, decide_eq_true_eq] at h
    obtain ⟨⟨h1, h2⟩, h3⟩ := h
    exact le_trans h1 (le_trans h2 (ih e d h3))

theorem chainedFrom_buildBlocks : ∀ (ivs : List (ℚ × ℚ)) (t d : ℚ),
    t ≤ d → intervalsOrderedB t ivs d = true →
    chainedFrom t (buildBlocks ivs t d) d := by
  intro ivs
  induction ivs with
  | nil =>
    intro t d ht _
    by_cases hlt : t < d
    · simp [buildBlocks, hlt, chainedFrom, AudioBlock.mk0]
    · have heq : t = d := le_antisymm ht (not_lt.mp hlt)
      simp [buildBlocks, hlt, chainedFrom, heq]
  | cons p rest ih =>
    intro t d _ h
    obtain ⟨s, e⟩ := p
    simp only [intervalsOrderedB, Bool.and_eq_true, decide_eq_true_eq] at h
    obtain ⟨⟨hts, _⟩, hrest⟩ := h
    have hed : e ≤ d := intervalsOrderedB_le rest e d hrest
    by_cases hlt : t < s
    · simp only [buildBlocks, if_pos hlt, List.singleton_append]
      exact ⟨rfl, rfl, ih e d hed hrest⟩
    · have hts' : s = t := le_antisymm (not_lt.mp hlt) hts
      simp only [buildBlocks, if_neg hlt, List.nil_append]
      exact ⟨hts', ih e d hed hrest⟩

theorem buildBlocks_wf : ∀ (ivs : List (ℚ × ℚ)) (t d : ℚ),
    intervalsOrderedB t ivs d = true →
    ∀ b ∈ buildBlocks ivs t d, b.start ≤ b.stop := by
  intro ivs
  induction ivs with
  | nil =>
    intro t d h b hb
    by_cases hlt : t < d
    · simp only [buildBlocks, if_pos hlt, List.mem_singleton] at hb
      subst hb; exact hlt.le
    · simp [buildBlocks, if_neg hlt] at hb
  | cons p rest ih =>
    intro t d h b hb
    obtain ⟨s, e⟩ := p
    simp only [intervalsOrderedB, Bool.and_eq_true, decide_eq_true_eq] at h
    obtain ⟨⟨hts, hse⟩, hrest⟩ := h
    by_cases hlt : t < s
    · simp only [buildBlocks, if_pos hlt, List.singleton_append, List.mem_cons] at hb
      rcases hb with hb | hb | hb
      · subst hb; exact hlt.le
      · subst hb; exact hse
      · exact ih e d hrest b hb
    · simp only [buildBlocks, if_neg hlt, List.nil_append, List.mem_cons] at hb
      rcases hb with hb | hb
      · subst hb; exact hse
      · exact ih e d hrest b hb

theorem noConsecNonSilence_cons_silence (a : AudioBlock) (l : List AudioBlock)
    (ha : a.is_silence = true) (hl : noConsecNonSilence l) :
    noConsecNonSilence (a :: l) := by
  cases l with
  | nil => trivial
  | cons b rest => exact ⟨Or.inl ha, hl⟩

theorem noConsecNonSilence_cons_before_silence (a b : AudioBlock)
    (l : List AudioBlock) (hb : b.is_silence = true)
    (h : noConsecNonSilence (b :: l)) :
    noConsecNonSilence (a :: b :: l) :=
  ⟨Or.inr hb, h⟩

theorem noConsecNonSilence_buildBlocks : ∀ (ivs : List (ℚ × ℚ)) (t d : ℚ),
    noConsecNonSilence (buildBlocks ivs t d) := by
  intro ivs
  induction ivs with
  | nil =>
    intro t d
    by_cases h : t < d <;> simp [buildBlocks, h, noConsecNonSilence]
  | cons p rest ih =>
    intro t d
    obtain ⟨s, e⟩ := p
    by_cases h : t < s
    · simp only [buildBlocks, if_pos h, List.singleton_append]
      exact noConsecNonSilence_cons_before_silence _ _ _ rfl
        (noConsecNonSilence_cons_silence _ _ rfl (ih e d))
    · simp only [buildBlocks, if_neg h, List.nil_append]
      exact noConsecNonSilence_cons_silence _ _ rfl (ih e d)

/-- C2: for ordered, non-overlapping silence intervals within the
positive duration, the builder's output tiles `[0, duration]` exactly
(no gaps, no overlaps, full coverage), every block is a non-degenerate
span, no two consecutive blocks are both non-silence; the scenario
intervals `[(2, 3), (5, 5.5)]` with duration 10 yield exactly the five
expected blocks, and zero intervals yield one non-silence block spanning
the whole duration. -/
theorem c2_block_builder (ivs : List (ℚ × ℚ)) (d : ℚ) (hd : 0 < d)
    (ho : intervalsOrderedB 0 ivs d = true) :
    chainedFrom 0 (buildBlocks ivs 0 d) d ∧
    (∀ b ∈ buildBlocks ivs 0 d, b.start ≤ b.stop) ∧
    noConsecNonSilence (buildBlocks ivs 0 d) ∧
    buildBlocks demoIntervals 0 10 =
      [AudioBlock.mk0 0 2 false, AudioBlock.mk0 2 3 true, AudioBlock.mk0 3 5 false,
       AudioBlock.mk0 5 (11/2) true, AudioBlock.mk0 (11/2) 10 false] ∧
    buildBlocks [] 0 d = [AudioBlock.mk0 0 d false] := by
  refine ⟨chainedFrom_buildBlocks ivs 0 d hd.le ho,
          buildBlocks_wf ivs 0 d ho,
          noConsecNonSilence_buildBlocks ivs 0 d, ?_, ?_⟩
  · norm_num [demoIntervals, buildBlocks]
  · simp [buildBlocks, hd]

theorem c2_block_builder_witness :
    (0 : ℚ) < 10 ∧ intervalsOrderedB 0 demoIntervals 10 = true ∧
    chainedFrom 0 (buildBlocks demoIntervals 0 10) 10 := by
  have h1 : (0 : ℚ) < 10 := by norm_num
  have h2 : intervalsOrderedB 0 demoIntervals 10 = true := by
    norm_num [demoIntervals, intervalsOrderedB]
  exact ⟨h1, h2, (c2_block_builder demoIntervals 10 h1 h2).1⟩

theorem zip_take_length : ∀ (xs ys : List ℚ),
    xs.zip ys = (xs.take ys.length).zip ys := by
  intro xs
  induction xs with
  | nil => intro ys; simp
  | cons x xs ih =>
    intro ys
    cases ys with
    | nil => simp
    | cons y ys => simp [List.take_succ_cons, ih ys]

/-- C9: when more silence_start markers than silence_end markers were
parsed, the i-th start pairs with the i-th end (the `zip` of the two
lists) and every unpaired trailing start is discarded: the produced
blocks are identical to those for the truncated start list. -/
theorem c9_dangling_start_discarded (silence_starts silence_ends : List ℚ)
    (probe : Option ℚ)
    (h : silence_ends.length < silence_starts.length) :
    detect_blocks silence_starts silence_ends probe =
      detect_blocks (silence_starts.take silence_ends.length) silence_ends probe ∧
    silence_starts.zip silence_ends =
      (silence_starts.take silence_ends.length).zip silence_ends := by
  have hz := zip_take_length silence_starts silence_ends
  refine ⟨?_, hz⟩
  cases probe with
  | none => rfl
  | some d => simp only [detect_blocks, hz]

theorem c9_witness :
    ([(3 : ℚ), 11/2].length < [(2 : ℚ), 5, 8].length) ∧
    detect_blocks [(2 : ℚ), 5, 8] [(3 : ℚ), 11/2] (some 10) =
      detect_blocks ([(2 : ℚ), 5, 8].take [(3 : ℚ), 11/2].length)
        [(3 : ℚ), 11/2] (some 10) :=
  ⟨by simp, (c9_dangling_start_discarded [(2 : ℚ), 5, 8] [(3 : ℚ), 11/2]
    (some 10) (by simp)).1⟩

theorem firstIdxWhere_some_spec (p : AudioBlock → Bool) :
    ∀ (l : List AudioBlock) (n : ℕ), firstIdxWhere p l = some n →
      n < l.length ∧ p (l.getD n default) = true ∧
      ∀ k < n, p (l.getD k default) = false := by
  intro l
  induction l with
  | nil => intro n h; simp [firstIdxWhere] at h
  | cons b bs ih =>
    intro n h
    by_cases hb : p b = true
    · simp only [firstIdxWhere, if_pos hb, Option.some.injEq] at h
      subst h
      exact ⟨by simp, by simpa using hb, fun k hk => absurd hk (by omega)⟩
    · have hb' : p b = false := by simpa using hb
      simp only [firstIdxWhere, if_neg hb, Option.map_eq_some'] at h
      obtain ⟨m, hm, rfl⟩ := h
      obtain ⟨h1, h2, h3⟩ := ih m hm
      refine ⟨by simpa using h1, by simpa using h2, ?_⟩
      intro k hk
      cases k with
      | zero => simpa using hb'
      | succ k' =>
        have := h3 k' (by omega)
        simpa using this

theorem firstIdxWhere_eq_some_of (p : AudioBlock → Bool) :
    ∀ (l : List AudioBlock) (n : ℕ), n < l.length →
      p (l.getD n default) = true → (∀ k < n, p (l.getD k default) = false) →
      firstIdxWhere p l = some n := by
  intro l
  induction l with
  | nil => intro n hn; simp at hn
  | cons b bs ih =>
    intro n hn hp hmin
    cases n with
    | zero =>
      have hb : p b = true := by simpa using hp
      simp [firstIdxWhere, hb]
    | succ m =>
      have hb : p b = false := by simpa using hmin 0 (by omega)
      have hrec : firstIdxWhere p bs = some m :=
        ih m (by simpa using hn) (by simpa using hp)
          (fun k hk => by simpa using hmin (k + 1) (by omega))
      simp [firstIdxWhere, hb, hrec]

theorem firstIdxWhere_eq_none_iff (p : AudioBlock → Bool) :
    ∀ (l : List AudioBlock), firstIdxWhere p l = none ↔
      ∀ k < l.length, p (l.getD k default) = false := by
  intro l
  induction l with
  | nil => simp [firstIdxWhere]
  | cons b bs ih =>
    constructor
    · intro h k hk
      by_cases hb : p b = true
      · simp [firstIdxWhere, hb] at h
      · have hb' : p b = false := by simpa using hb
        simp only [firstIdxWhere, if_neg hb, Option.map_eq_none'] at h
        cases k with
        | zero => simpa using hb'
        | succ k' =>
          have := (ih.mp h) k' (by simpa using hk)
          simpa using this
    · intro h
      have hb : p b = false := by simpa using h 0 (by simp)
      have hrec : firstIdxWhere p bs = none :=
        ih.mpr (fun k hk => by simpa using h (k + 1) (by simpa using hk))
      simp [firstIdxWhere, hb, hrec]

/-- C7: `findBlockAt` returns the smallest index whose closed span
`[start, end]` contains the position (so a shared boundary resolves to
the earlier block), and returns 0 when no block contains it (empty list
or out-of-range position). -/
theorem c7_findBlockAt (blocks : List AudioBlock) (p : ℚ) :
    ((∃ i, i < blocks.length ∧ containsPos p (blocks.getD i default) = true) →
      findBlockAt blocks p < blocks.length ∧
      containsPos p (blocks.getD (findBlockAt blocks p) default) = true ∧
      ∀ k < findBlockAt blocks p, containsPos p (blocks.getD k default) = false) ∧
    ((∀ i < blocks.length, containsPos p (blocks.getD i default) = false) →
      findBlockAt blocks p = 0) := by
  constructor
  · rintro ⟨i, hi, hp⟩
    cases hfi : firstIdxWhere (containsPos p) blocks with
    | none =>
      have := (firstIdxWhere_eq_none_iff (containsPos p) blocks).mp hfi i hi
      rw [hp] at this
      exact absurd this (by simp)
    | some n =>
      have hspec := firstIdxWhere_some_spec (containsPos p) blocks n hfi
      simpa [findBlockAt, hfi] using hspec
  · intro hall
    have hfi : firstIdxWhere (containsPos p) blocks = none :=
      (firstIdxWhere_eq_none_iff (containsPos p) blocks).mpr hall
    simp [findBlockAt, hfi]

theorem c7_findBlockAt_witness :
    (∃ i, i < demoExportBlocks.length ∧
      containsPos 4 (demoExportBlocks.getD i default) = true) ∧
    (findBlockAt demoExportBlocks 4 < demoExportBlocks.length ∧
     containsPos 4 (demoExportBlocks.getD (findBlockAt demoExportBlocks 4) default) = true ∧
     ∀ k < findBlockAt demoExportBlocks 4,
       containsPos 4 (demoExportBlocks.getD k default) = false) :=
  ⟨⟨2, by decide, by decide⟩,
   (c7_findBlockAt demoExportBlocks 4).1 ⟨2, by decide, by decide⟩⟩

theorem buildBlocks_silence_clean : ∀ (ivs : List (ℚ × ℚ)) (t d : ℚ),
    ∀ b ∈ buildBlocks ivs t d,
      b.is_silence = true → b.incl = false ∧ b.visited = false := by
  intro ivs
  induction ivs with
  | nil =>
    intro t d b hb
    by_cases h : t < d
    · simp only [buildBlocks, if_pos h, List.mem_singleton] at hb
      subst hb
      intro hs
      simp [AudioBlock.mk0] at hs
    · simp [buildBlocks, if_neg h] at hb
  | cons p rest ih =>
    intro t d b hb
    obtain ⟨s, e⟩ := p
    by_cases h : t < s
    · simp only [buildBlocks, if_pos h, List.singleton_append, List.mem_cons] at hb
      rcases hb with rfl | rfl | hb
      · intro hs; simp [AudioBlock.mk0] at hs
      · intro _; simp [AudioBlock.mk0]
      · exact ih e d b hb
    · simp only [buildBlocks, if_neg h, List.nil_append, List.mem_cons] at hb
      rcases hb with rfl | hb
      · intro _; simp [AudioBlock.mk0]
      · exact ih e d b hb

theorem modifyAt_preserves (P : AudioBlock → Prop) (f : AudioBlock → AudioBlock)
    (hf : ∀ b, P b → P (f b)) :
    ∀ (bs : List AudioBlock) (i : ℕ), (∀ b ∈ bs, P b) →
      ∀ b ∈ modifyAt bs i f, P b := by
  intro bs
  induction bs with
  | nil => intro i _ b hb; simp [modifyAt] at hb
  | cons a as ih =>
    intro i h b hb
    cases i with
    | zero =>
      simp only [modifyAt, List.mem_cons] at hb
      rcases hb with rfl | hb
      · exact hf a (h a (by simp))
      · exact h b (by simp [hb])
    | succ n =>
      simp only [modifyAt, List.mem_cons] at hb
      rcases hb with rfl | hb
      · exact h b (by simp)
      · exact ih n (fun x hx => h x (by simp [hx])) b hb

theorem position_changed_preserves_silence (bs : List AudioBlock)
    (pos : ℚ) (green : Bool)
    (h : ∀ b ∈ bs, b.is_silence = true → b.incl = false ∧ b.visited = false) :
    ∀ b ∈ position_changed bs pos green,
      b.is_silence = true → b.incl = false ∧ b.visited = false := by
  unfold position_changed
  by_cases he : bs.isEmpty
  · simpa [he] using h
  · simp only [he, Bool.false_eq_true, if_false]
    refine modifyAt_preserves _ _ ?_ bs _ h
    intro b hPb
    by_cases hs : b.is_silence = true
    · simpa [hs] using hPb
    · have hs' : b.is_silence = false := by simpa using hs
      simp only [hs', Bool.false_eq_true, if_false]
      intro hcontra
      simp [hs'] at hcontra

theorem reset_blocks_preserves_silence (bs : List AudioBlock)
    (h : ∀ b ∈ bs, b.is_silence = true → b.incl = false ∧ b.visited = false) :
    ∀ b ∈ reset_blocks bs,
      b.is_silence = true → b.incl = false ∧ b.visited = false := by
  intro b hb
  simp only [reset_blocks, List.mem_map] at hb
  obtain ⟨a, ha, rfl⟩ := hb
  by_cases hs : a.is_silence = true
  · simpa [hs] using h a ha
  · have hs' : a.is_silence = false := by simpa using hs
    simp only [hs', Bool.false_eq_true, if_false]
    intro hcontra
    simp [hs'] at hcontra

/-- C10: in every block-list state reachable from a model freshly
populated by the block builder — under position-update classification
and reset, the only operations that write block flags — every silence
block still has `include = false` and `visited = false`. -/
theorem c10_silence_flags_invariant (bs : List AudioBlock) (h : Reachable bs) :
    ∀ b ∈ bs, b.is_silence = true → b.incl = false ∧ b.visited = false := by
  induction h with
  | fresh ivs d => exact buildBlocks_silence_clean ivs 0 d
  | posUpdate pos green _ ih => exact position_changed_preserves_silence _ pos green ih
  | reset _ ih => exact reset_blocks_preserves_silence _ ih

theorem c10_silence_flags_invariant_witness :
    Reachable (reset_blocks (position_changed (buildBlocks demoIntervals 0 10) 4 false)) ∧
    ∀ b ∈ reset_blocks (position_changed (buildBlocks demoIntervals 0 10) 4 false),
      b.is_silence = true → b.incl = false ∧ b.visited = false :=
  ⟨Reachable.reset (Reachable.posUpdate 4 false (Reachable.fresh demoIntervals 10)),
   c10_silence_flags_invariant _
     (Reachable.reset (Reachable.posUpdate 4 false (Reachable.fresh demoIntervals 10)))⟩

theorem getD_drop : ∀ (l : List AudioBlock) (i j : ℕ),
    (l.drop i).getD j default = l.getD (i + j) default := by
  intro l
  induction l with
  | nil => intro i j; simp
  | cons b bs ih =>
    intro i j
    cases i with
    | zero => simp
    | succ n =>
      have h1 : n + 1 + j = (n + j) + 1 := by omega
      simp only [List.drop_succ_cons, ih n j, h1, List.getD_cons_succ]

theorem skip_silence_eq (blocks : List AudioBlock) (idx : ℕ) (pos : ℚ)
    (hidx : idx < blocks.length) :
    skip_silence blocks idx pos =
      if pos - (blocks.getD idx default).start < 1/10 then .noop
      else if skipCondition (blocks.getD idx default) then
        match (firstIdxWhere suitableBlock (blocks.drop (idx + 1))).map (· + (idx + 1)) with
        | some j => .seekAndPlay ((blocks.getD j default).start + 1/20) j
        | none => .stopPlayback
      else .noop := by
  have hemp : blocks.isEmpty = false := by
    cases blocks with
    | nil => simp at hidx
    | cons a l => rfl
  have hclamp : ¬ blocks.length ≤ idx := not_le.mpr hidx
  unfold skip_silence
  simp only [hemp, Bool.false_eq_true, if_false, if_neg hclamp]

/-- C3: with a valid current index, one `skip_silence` tick is a no-op
while the playhead has been inside the current block for less than
0.1s; past the guard it decides to skip iff the current block is
silence and not included, or is non-silence shorter than 0.2s
(regardless of its include flag); on a skip it seeks to `start + 0.05`
of the nearest strictly-later block that is non-silence with duration
at least 0.3s and keeps playback running, and when no such block exists
forward it stops playback. -/
theorem c3_skip_silence (blocks : List AudioBlock) (idx : ℕ) (pos : ℚ)
    (hidx : idx < blocks.length) :
    (pos - (blocks.getD idx default).start < 1/10 →
      skip_silence blocks idx pos = SkipAction.noop) ∧
    (1/10 ≤ pos - (blocks.getD idx default).start →
      (skipCondition (blocks.getD idx default) = false →
        skip_silence blocks idx pos = SkipAction.noop) ∧
      (skipCondition (blocks.getD idx default) = true →
        skip_silence blocks idx pos ≠ SkipAction.noop ∧
        (∀ j, idx < j → j < blocks.length →
          suitableBlock (blocks.getD j default) = true →
          (∀ k, idx < k → k < j → suitableBlock (blocks.getD k default) = false) →
          skip_silence blocks idx pos =
            SkipAction.seekAndPlay ((blocks.getD j default).start + 1/20) j) ∧
        ((∀ j, idx < j → j < blocks.length →
            suitableBlock (blocks.getD j default) = false) →
          skip_silence blocks idx pos = SkipAction.stopPlayback))) := by
  have hred := skip_silence_eq blocks idx pos hidx
  constructor
  · intro hguard
    rw [hred, if_pos hguard]
  · intro hguard
    have hguard' : ¬ (pos - (blocks.getD idx default).start < 1/10) :=
      not_lt.mpr hguard
    constructor
    · intro hcond
      rw [hred, if_neg hguard', if_neg (by rw [hcond]; exact Bool.false_ne_true)]
    · intro hcond
      refine ⟨?_, ?_, ?_⟩
      · rw [hred, if_neg hguard', if_pos hcond]
        cases hfi : (firstIdxWhere suitableBlock (blocks.drop (idx + 1))).map (· + (idx + 1)) with
        | none => simp
        | some j => simp
      · intro j hij hjlen hsuit hmin
        have hfi : firstIdxWhere suitableBlock (blocks.drop (idx + 1)) =
            some (j - (idx + 1)) := by
          apply firstIdxWhere_eq_some_of
          · rw [List.length_drop]; omega
          · rw [getD_drop]
            have hj : idx + 1 + (j - (idx + 1)) = j := by omega
            rw [hj]; exact hsuit
          · intro k hk
            rw [getD_drop]
            exact hmin (idx + 1 + k) (by omega) (by omega)
        rw [hred, if_neg hguard', if_pos hcond, hfi]
        have hj : j - (idx + 1) + (idx + 1) = j := by omega
        simp only [Option.map_some', hj]
      · intro hnone
        have hfi : firstIdxWhere suitableBlock (blocks.drop (idx + 1)) = none := by
          apply (firstIdxWhere_eq_none_iff _ _).mpr
          intro k hk
          rw [List.length_drop] at hk
          rw [getD_drop]
          exact hnone (idx + 1 + k) (by omega) (by omega)
        rw [hred, if_neg hguard', if_pos hcond, hfi]
        simp only [Option.map_none']

theorem c3_skip_silence_witness :
    (1 < demoExportBlocks.length) ∧
    (1/10 ≤ (5/2 : ℚ) - (demoExportBlocks.getD 1 default).start) ∧
    skipCondition (demoExportBlocks.getD 1 default) = true ∧
    (1 < 2 ∧ 2 < demoExportBlocks.length ∧
      suitableBlock (demoExportBlocks.getD 2 default) = true) ∧
    skip_silence demoExportBlocks 1 (5/2) =
      SkipAction.seekAndPlay ((demoExportBlocks.getD 2 default).start + 1/20) 2 := by
  have hlen : 1 < demoExportBlocks.length := by decide
  have hguard : 1/10 ≤ (5/2 : ℚ) - (demoExportBlocks.getD 1 default).start := by
    norm_num [demoExportBlocks]
  have hcond : skipCondition (demoExportBlocks.getD 1 default) = true := by decide
  have hsuit : suitableBlock (demoExportBlocks.getD 2 default) = true := by
    norm_num [demoExportBlocks, suitableBlock]
  refine ⟨hlen, hguard, hcond, ⟨by omega, by decide, hsuit⟩, ?_⟩
  exact (((c3_skip_silence demoExportBlocks 1 (5/2) hlen).2 hguard).2 hcond).2.1
    2 (by omega) (by decide) hsuit
    (fun k hk1 hk2 => absurd hk1 (by omega))

theorem from_dict_to_dict (b : AudioBlock) :
    AudioBlock.from_dict (AudioBlock.to_dict b) = some b := by
  cases b
  rfl

theorem blocksFromDicts_map_to_dict : ∀ (bs : List AudioBlock),
    blocksFromDicts (bs.map AudioBlock.to_dict) = some bs := by
  intro bs
  induction bs with
  | nil => rfl
  | cons b rest ih =>
    simp only [List.map_cons, blocksFromDicts, from_dict_to_dict, ih,
      Option.bind_eq_bind, Option.some_bind]
    rfl

theorem load_stateJson (m : BlockManager) (vp : JValue) (bs : List AudioBlock) :
    m.load_state (some (stateJson vp bs)) =
      ({ video_path := vp, blocks := bs,
         duration := match bs.getLast? with
                     | some b => some b.stop
                     | none => m.duration }, true) := by
  unfold BlockManager.load_state stateJson
  simp only [JValue.asObj, jLookup, JValue.asArr, blocksFromDicts_map_to_dict,
    if_true, eq_self_iff_true]
  rw [if_neg (by decide : ¬("video_path" = "blocks"))]
  simp only [JValue.asArr, blocksFromDicts_map_to_dict]
  cases bs.getLast? <;> rfl

/-- C6: serializing a valid model (string video reference, non-empty
block list satisfying the structural invariant) and deserializing the
result reproduces the video reference and every field of every block
exactly. -/
theorem c6_round_trip (m : BlockManager) (hvp : ∃ s, m.video_path = JValue.jstr s)
    (hbs : m.blocks ≠ []) (hinv : structuralInvariantB m.blocks = true)
    (m₀ : BlockManager) :
    ∃ j, m.save_state = some j ∧
      (m₀.load_state (some j)).2 = true ∧
      (m₀.load_state (some j)).1.video_path = m.video_path ∧
      (m₀.load_state (some j)).1.blocks = m.blocks := by
  have hemp : m.blocks.isEmpty = false := by
    cases hb : m.blocks with
    | nil => exact absurd hb hbs
    | cons a l => rfl
  refine ⟨stateJson m.video_path m.blocks, ?_, ?_, ?_, ?_⟩
  · simp [BlockManager.save_state, hemp]
  · rw [load_stateJson]
  · rw [load_stateJson]
  · rw [load_stateJson]

theorem c6_round_trip_witness :
    (∃ s, demoManager.video_path = JValue.jstr s) ∧ demoManager.blocks ≠ [] ∧
    structuralInvariantB demoManager.blocks = true ∧
    ∃ j, demoManager.save_state = some j ∧
      ((⟨JValue.jnull, [], none⟩ : BlockManager).load_state (some j)).2 = true ∧
      ((⟨JValue.jnull, [], none⟩ : BlockManager).load_state (some j)).1.video_path =
        demoManager.video_path ∧
      ((⟨JValue.jnull, [], none⟩ : BlockManager).load_state (some j)).1.blocks =
        demoManager.blocks :=
  ⟨⟨"video.mp4", rfl⟩, by decide, by decide,
   c6_round_trip demoManager ⟨"video.mp4", rfl⟩ (by decide) (by decide)
     ⟨JValue.jnull, [], none⟩⟩

/-- C4 counterexample: a persisted state whose single block starts at 1
(violating the first-block-starts-at-0 part of the structural
invariant) loads successfully — the load reports success and the model
holds the invariant-violating blocks, with no validation failure. -/
theorem c4_counterexample :
    structuralInvariantB badBlocks = false ∧
    ((⟨JValue.jnull, [], none⟩ : BlockManager).load_state
        (some (stateJson (JValue.jstr "v.mp4") badBlocks))).2 = true ∧
    ((⟨JValue.jnull, [], none⟩ : BlockManager).load_state
        (some (stateJson (JValue.jstr "v.mp4") badBlocks))).1.blocks = badBlocks := by
  refine ⟨by decide, ?_, ?_⟩ <;> rw [load_stateJson]

/-- C4 (amended): `load_state` performs no structural-invariant
validation: every schema-well-formed persisted state loads successfully
and the model is built from its block list verbatim, even when that
list violates adjacency/coverage. -/
theorem c4_no_validation (m : BlockManager) (vp : JValue) (bs : List AudioBlock)
    (hbad : structuralInvariantB bs = false) :
    (m.load_state (some (stateJson vp bs))).2 = true ∧
    (m.load_state (some (stateJson vp bs))).1.blocks = bs := by
  rw [load_stateJson]
  exact ⟨rfl, rfl⟩

theorem c4_no_validation_witness :
    structuralInvariantB gapBlocks = false ∧
    (((⟨JValue.jnull, [], none⟩ : BlockManager).load_state
        (some (stateJson (JValue.jstr "w.mp4") gapBlocks))).2 = true ∧
     ((⟨JValue.jnull, [], none⟩ : BlockManager).load_state
        (some (stateJson (JValue.jstr "w.mp4") gapBlocks))).1.blocks = gapBlocks) :=
  ⟨by decide, c4_no_validation ⟨JValue.jnull, [], none⟩ (JValue.jstr "w.mp4")
    gapBlocks (by decide)⟩

/-- C5 counterexample: a load that fails (missing `blocks` key) leaves
the model partially populated: the block list is the old one but the
video reference has already been overwritten with the input's value. -/
theorem c5_counterexample :
    (oldManager.load_state (some truncatedState)).2 = false ∧
    (oldManager.load_state (some truncatedState)).1.blocks = oldManager.blocks ∧
    (oldManager.load_state (some truncatedState)).1.video_path = JValue.jstr "new.mp4" ∧
    oldManager.video_path = JValue.jstr "old.mp4" ∧
    JValue.jstr "new.mp4" ≠ JValue.jstr "old.mp4" := by
  refine ⟨by decide, by decide, rfl, rfl, ?_⟩
  intro h
  injection h with h'
  exact absurd h' (by decide)

/-- C5 (amended): on every failing load the block list and the duration
are left exactly as they were; the video reference, however, is not
always preserved — when the failure occurs after the `video_path` field
has been read, it is overwritten (see the counterexample). -/
theorem c5_blocks_unchanged_on_failure (m : BlockManager) (input : Option JValue)
    (hfail : (m.load_state input).2 = false) :
    (m.load_state input).1.blocks = m.blocks ∧
    (m.load_state input).1.duration = m.duration := by
  cases input with
  | none => exact ⟨rfl, rfl⟩
  | some j =>
    cases hobj : j.asObj with
    | none => simp [BlockManager.load_state, hobj]
    | some fields =>
      cases hvp : jLookup fields "video_path" with
      | none => simp [BlockManager.load_state, hobj, hvp]
      | some vpj =>
        cases hbl : jLookup fields "blocks" with
        | none => simp [BlockManager.load_state, hobj, hvp, hbl]
        | some bj =>
          cases harr : bj.asArr with
          | none => simp [BlockManager.load_state, hobj, hvp, hbl, harr]
          | some arr =>
            cases hbd : blocksFromDicts arr with
            | none => simp [BlockManager.load_state, hobj, hvp, hbl, harr, hbd]
            | some bs =>
              exfalso
              cases hgl : bs.getLast? <;>
                simp [BlockManager.load_state, hobj, hvp, hbl, harr, hbd, hgl] at hfail

theorem c5_blocks_unchanged_on_failure_witness :
    (oldManager.load_state (some (JValue.jnum 3))).2 = false ∧
    ((oldManager.load_state (some (JValue.jnum 3))).1.blocks = oldManager.blocks ∧
     (oldManager.load_state (some (JValue.jnum 3))).1.duration = oldManager.duration) :=
  ⟨by decide, c5_blocks_unchanged_on_failure oldManager (some (JValue.jnum 3)) (by decide)⟩

theorem buildSegments_eq_map : ∀ (l : List AudioBlock),
    buildSegments l = l.map fun b =>
      { start := b.start, duration := max (1/10) (b.stop - b.start) } := by
  intro l
  induction l with
  | nil => rfl
  | cons b rest ih => simp [buildSegments, ih]

/-- C1: when the export runs on a model with a truthy video reference,
a non-empty block list and a non-empty selection, the plan consists of
exactly the blocks that are non-silence, visited and included — one
segment descriptor per selected block, in original index order (the
selection is a sublist of the block list), each descriptor being the
block's start with duration `max(0.1, end - start)`. -/
theorem c1_export_plan (m : BlockManager) (hvp : m.video_path.falsy = false)
    (hbs : m.blocks ≠ []) (hsel : m.blocks.filter includedBlock ≠ []) :
    export_green_blocks m =
      ExportResult.plan ((m.blocks.filter includedBlock).map fun b =>
        { start := b.start, duration := max (1/10) (b.stop - b.start) }) ∧
    (m.blocks.filter includedBlock).Sublist m.blocks ∧
    ∀ b, b ∈ m.blocks.filter includedBlock ↔ b ∈ m.blocks ∧ includedBlock b = true := by
  have hemp : m.blocks.isEmpty = false := by
    cases hb : m.blocks with
    | nil => exact absurd hb hbs
    | cons a l => rfl
  have hselemp : (m.blocks.filter includedBlock).isEmpty = false := by
    cases hb : m.blocks.filter includedBlock with
    | nil => exact absurd hb hsel
    | cons a l => rfl
  refine ⟨?_, List.filter_sublist m.blocks, fun b => by simp [List.mem_filter]⟩
  unfold export_green_blocks
  simp only [hvp, hemp, Bool.or_self, Bool.false_eq_true, if_false, hselemp,
    buildSegments_eq_map]

theorem c1_export_plan_witness :
    demoManager.video_path.falsy = false ∧ demoManager.blocks ≠ [] ∧
    demoManager.blocks.filter includedBlock ≠ [] ∧
    export_green_blocks demoManager =
      ExportResult.plan ((demoManager.blocks.filter includedBlock).map fun b =>
        { start := b.start, duration := max (1/10) (b.stop - b.start) }) :=
  ⟨by decide, by decide, by decide,
   (c1_export_plan demoManager (by decide) (by decide) (by decide)).1⟩

/-- C8 counterexample: duration 0 is non-positive, yet the parsing step
does not fail — it returns a block list (here the empty one). -/
theorem c8_counterexample :
    (0 : ℚ) ≤ 0 ∧ detect_blocks [] [] (some 0) = Except.ok [] := by
  refine ⟨le_refl 0, ?_⟩
  simp [detect_blocks, buildBlocks]

/-- C8 (amended): a missing/unparsable duration probe makes the parsing
step fail (the uncaught ValueError), but a non-positive duration value
is accepted without any failure: the parser returns normally with a
block list, which is empty when no paired silence intervals exist. -/
theorem c8_nonpositive_duration_accepted (silence_starts silence_ends : List ℚ)
    (d : ℚ) (hd : d ≤ 0) :
    (∃ msg, detect_blocks silence_starts silence_ends none = Except.error msg) ∧
    ∃ bs, detect_blocks silence_starts silence_ends (some d) = Except.ok bs ∧
      (silence_starts.zip silence_ends = [] → bs = []) := by
  refine ⟨⟨_, rfl⟩, buildBlocks (silence_starts.zip silence_ends) 0 d, rfl, ?_⟩
  intro hz
  rw [hz]
  simp [buildBlocks, not_lt.mpr hd]

theorem c8_witness :
    ((-1 : ℚ) ≤ 0) ∧
    (∃ msg, detect_blocks [] [] none = Except.error msg) ∧
    ∃ bs, detect_blocks [] [] (some (-1)) = Except.ok bs ∧
      (([] : List ℚ).zip ([] : List ℚ) = [] → bs = []) :=
  ⟨by norm_num, c8_nonpositive_duration_accepted [] [] (-1) (by norm_num)⟩
